import Mathlib

/-!
Verification of the seabirds repository's training/cross-validation script
(src/Code/build_train_xvalidate_ANN.py).

The script iterates over per-window-size CSV data sets, performs
leave-one-subject-out cross-validation, aggregates per-fold confusion
statistics, and writes per-window and cross-window summary tables.  This file
gives a shallow embedding of its pure computational content: metric
aggregation over ℚ, file discovery by glob pattern, window-id extraction by
regex search, configuration validation, and the summary-table accumulation
and final sort.
-/

namespace Seabirds

/-- One per-fold metrics record, as returned by
`core.build_train_evaluate_dask` for one withheld bird: the subject id plus
the nine statistics in the `metrics` column order of the script
(Accuracy, AUC, Precision, Sensitivity, Specificity, then the four raw
confusion counts TruePos, FalsePos, FalseNeg, TrueNeg). -/
structure FoldRecord where
  tagID : String
  accuracy : ℚ
  auc : ℚ
  precision : ℚ
  sensitivity : ℚ
  specificity : ℚ
  truePos : ℚ
  falsePos : ℚ
  falseNeg : ℚ
  trueNeg : ℚ

/-- Row total of the four confusion counts of one fold:
`conf_temp.sum(axis=1)` for one row. -/
def confRowTotal (r : FoldRecord) : ℚ :=
  r.truePos + r.falsePos + r.falseNeg + r.trueNeg

/-- The in-place percentage conversion
`Xval_metrics.iloc[:, -4:] = (conf_temp / conf_temp.sum(axis=1, keepdims=True)) * 100`
applied to one row: the four confusion fields are each divided by the row
total and scaled by 100; the five non-confusion statistics are untouched. -/
def toPercentages (r : FoldRecord) : FoldRecord :=
  { r with
    truePos := r.truePos / confRowTotal r * 100
    falsePos := r.falsePos / confRowTotal r * 100
    falseNeg := r.falseNeg / confRowTotal r * 100
    trueNeg := r.trueNeg / confRowTotal r * 100 }

/-- The `Xval_metrics` table after percentage conversion — the per-fold table
that the script writes to the per-window-size CSV. -/
def xvalMetricsTable (rs : List FoldRecord) : List FoldRecord :=
  rs.map toPercentages

/-- Sum of one statistic over a list of fold records. -/
def sumBy (f : FoldRecord → ℚ) (rs : List FoldRecord) : ℚ :=
  (rs.map f).sum

/-- Column mean of one statistic over a list of fold records
(`.mean(axis=0)` over a column). -/
def meanBy (f : FoldRecord → ℚ) (rs : List FoldRecord) : ℚ :=
  sumBy f rs / rs.length

/-- `mean_stats = Xval_metrics.iloc[:, 1:6].mean(axis=0)`: column means of the
five non-confusion statistics, taken over the converted `Xval_metrics` table
(whose first five statistic columns the conversion left untouched). -/
def meanStats (rs : List FoldRecord) : List ℚ :=
  [meanBy FoldRecord.accuracy (xvalMetricsTable rs),
   meanBy FoldRecord.auc (xvalMetricsTable rs),
   meanBy FoldRecord.precision (xvalMetricsTable rs),
   meanBy FoldRecord.sensitivity (xvalMetricsTable rs),
   meanBy FoldRecord.specificity (xvalMetricsTable rs)]

/-- `conf_total = conf_temp.sum(axis=0)`: the four confusion counts pooled by
summing the raw (pre-conversion) counts across all folds.  `conf_temp` was
captured as a numpy array before the in-place percentage conversion, so these
are raw counts. -/
def confTotalRaw (rs : List FoldRecord) : List ℚ :=
  [sumBy FoldRecord.truePos rs, sumBy FoldRecord.falsePos rs,
   sumBy FoldRecord.falseNeg rs, sumBy FoldRecord.trueNeg rs]

/-- The pooled grand total `conf_total.sum()`. -/
def grandTotal (rs : List FoldRecord) : ℚ :=
  (confTotalRaw rs).sum

/-- `conf_total = (conf_total / conf_total.sum()) * 100`: the pooled counts
converted to percentages of the pooled total (sum-then-normalize). -/
def confTotalPct (rs : List FoldRecord) : List ℚ :=
  (confTotalRaw rs).map (fun x => x / grandTotal rs * 100)

/-- The row appended to the cross-window summary table for one window size:
`out_stats.loc[wdw] = [*mean_stats, *conf_total]`. -/
def summaryRow (rs : List FoldRecord) : List ℚ :=
  meanStats rs ++ confTotalPct rs

/-- The naive alternative the spec contrasts against: the mean of the
per-fold confusion percentages (column means of the converted table's four
confusion columns).  The script does not compute this for the summary row. -/
def meanOfFoldPercents (rs : List FoldRecord) : List ℚ :=
  [meanBy FoldRecord.truePos (xvalMetricsTable rs),
   meanBy FoldRecord.falsePos (xvalMetricsTable rs),
   meanBy FoldRecord.falseNeg (xvalMetricsTable rs),
   meanBy FoldRecord.trueNeg (xvalMetricsTable rs)]

@[simp] theorem toPercentages_accuracy (r : FoldRecord) :
    (toPercentages r).accuracy = r.accuracy := rfl

@[simp] theorem toPercentages_auc (r : FoldRecord) :
    (toPercentages r).auc = r.auc := rfl

@[simp] theorem toPercentages_precision (r : FoldRecord) :
    (toPercentages r).precision = r.precision := rfl

@[simp] theorem toPercentages_sensitivity (r : FoldRecord) :
    (toPercentages r).sensitivity = r.sensitivity := rfl

@[simp] theorem toPercentages_specificity (r : FoldRecord) :
    (toPercentages r).specificity = r.specificity := rfl

/-- The conversion changes only the confusion fields, so the column means of
the five non-confusion statistics over the converted table equal their means
over the raw records. -/
theorem meanBy_xvalMetricsTable (f : FoldRecord → ℚ)
    (hf : ∀ r, f (toPercentages r) = f r) (rs : List FoldRecord) :
    meanBy f (xvalMetricsTable rs) = meanBy f rs := by
  simp [meanBy, sumBy, xvalMetricsTable, List.map_map, Function.comp_def, hf]

/-- C4: for every per-fold record whose four raw confusion counts have a
nonzero total, the per-fold table contains that record with its four counts
converted to row-wise percentages (count / own row total × 100), and these
four percentages sum to 100. -/
theorem C4_fold_percentages (rs : List FoldRecord) (r : FoldRecord)
    (hmem : r ∈ rs) (h0 : confRowTotal r ≠ 0) :
    toPercentages r ∈ xvalMetricsTable rs ∧
    (toPercentages r).truePos = r.truePos / confRowTotal r * 100 ∧
    (toPercentages r).falsePos = r.falsePos / confRowTotal r * 100 ∧
    (toPercentages r).falseNeg = r.falseNeg / confRowTotal r * 100 ∧
    (toPercentages r).trueNeg = r.trueNeg / confRowTotal r * 100 ∧
    (toPercentages r).truePos + (toPercentages r).falsePos +
      (toPercentages r).falseNeg + (toPercentages r).trueNeg = 100 := by
  refine ⟨List.mem_map_of_mem toPercentages hmem, rfl, rfl, rfl, rfl, ?_⟩
  show r.truePos / confRowTotal r * 100 + r.falsePos / confRowTotal r * 100 +
      r.falseNeg / confRowTotal r * 100 + r.trueNeg / confRowTotal r * 100 = 100
  have h : r.truePos / confRowTotal r * 100 + r.falsePos / confRowTotal r * 100 +
      r.falseNeg / confRowTotal r * 100 + r.trueNeg / confRowTotal r * 100 =
      confRowTotal r / confRowTotal r * 100 := by
    rw [confRowTotal]; ring
  rw [h, div_self h0]; norm_num

/-- A concrete fold record with raw confusion counts (1, 0, 0, 0), used by
witnesses. -/
def sampleFold : FoldRecord := ⟨"B1", 0, 0, 0, 0, 0, 1, 0, 0, 0⟩

/-- Witness for C4 at a concrete fold record with counts (1, 0, 0, 0). -/
theorem C4_fold_percentages_witness :
    toPercentages sampleFold ∈ xvalMetricsTable [sampleFold] ∧
    (toPercentages sampleFold).truePos =
      sampleFold.truePos / confRowTotal sampleFold * 100 ∧
    (toPercentages sampleFold).falsePos =
      sampleFold.falsePos / confRowTotal sampleFold * 100 ∧
    (toPercentages sampleFold).falseNeg =
      sampleFold.falseNeg / confRowTotal sampleFold * 100 ∧
    (toPercentages sampleFold).trueNeg =
      sampleFold.trueNeg / confRowTotal sampleFold * 100 ∧
    (toPercentages sampleFold).truePos + (toPercentages sampleFold).falsePos +
      (toPercentages sampleFold).falseNeg + (toPercentages sampleFold).trueNeg =
      100 :=
  C4_fold_percentages [sampleFold] sampleFold (List.mem_singleton.mpr rfl)
    (by simp [sampleFold, confRowTotal])

/-- C1: the summary row appended for one window size is the mean of the five
non-confusion statistics across all folds, followed by the four pooled
confusion percentages obtained by summing the raw counts across folds and
normalizing the pooled sums (sum-then-normalize); and sum-then-normalize is
not in general the mean of the per-fold percentages. -/
theorem C1_summary_row (rs : List FoldRecord) (hne : rs ≠ [])
    (hg : grandTotal rs ≠ 0) :
    summaryRow rs =
      [sumBy FoldRecord.accuracy rs / rs.length,
       sumBy FoldRecord.auc rs / rs.length,
       sumBy FoldRecord.precision rs / rs.length,
       sumBy FoldRecord.sensitivity rs / rs.length,
       sumBy FoldRecord.specificity rs / rs.length,
       sumBy FoldRecord.truePos rs / grandTotal rs * 100,
       sumBy FoldRecord.falsePos rs / grandTotal rs * 100,
       sumBy FoldRecord.falseNeg rs / grandTotal rs * 100,
       sumBy FoldRecord.trueNeg rs / grandTotal rs * 100] ∧
    ∃ rs2 : List FoldRecord, confTotalPct rs2 ≠ meanOfFoldPercents rs2 := by
  constructor
  · simp only [summaryRow, meanStats, confTotalPct, confTotalRaw, List.map_cons,
      List.map_nil, List.cons_append, List.nil_append,
      meanBy_xvalMetricsTable FoldRecord.accuracy (fun r => rfl),
      meanBy_xvalMetricsTable FoldRecord.auc (fun r => rfl),
      meanBy_xvalMetricsTable FoldRecord.precision (fun r => rfl),
      meanBy_xvalMetricsTable FoldRecord.sensitivity (fun r => rfl),
      meanBy_xvalMetricsTable FoldRecord.specificity (fun r => rfl)]
    simp [meanBy]
  · refine ⟨[⟨"A", 0, 0, 0, 0, 0, 1, 0, 0, 0⟩, ⟨"B", 0, 0, 0, 0, 0, 0, 3, 0, 1⟩], ?_⟩
    intro h
    have h1 := congrArg (fun l => l.headI) h
    norm_num [confTotalPct, confTotalRaw, grandTotal, meanOfFoldPercents,
      meanBy, sumBy, xvalMetricsTable, toPercentages, confRowTotal] at h1

/-- Witness for C1 at a concrete one-fold list with counts (1, 0, 0, 0). -/
theorem C1_summary_row_witness :
    summaryRow [sampleFold] =
      [sumBy FoldRecord.accuracy [sampleFold] / ([sampleFold].length : ℚ),
       sumBy FoldRecord.auc [sampleFold] / ([sampleFold].length : ℚ),
       sumBy FoldRecord.precision [sampleFold] / ([sampleFold].length : ℚ),
       sumBy FoldRecord.sensitivity [sampleFold] / ([sampleFold].length : ℚ),
       sumBy FoldRecord.specificity [sampleFold] / ([sampleFold].length : ℚ),
       sumBy FoldRecord.truePos [sampleFold] / grandTotal [sampleFold] * 100,
       sumBy FoldRecord.falsePos [sampleFold] / grandTotal [sampleFold] * 100,
       sumBy FoldRecord.falseNeg [sampleFold] / grandTotal [sampleFold] * 100,
       sumBy FoldRecord.trueNeg [sampleFold] / grandTotal [sampleFold] * 100] ∧
    ∃ rs2 : List FoldRecord, confTotalPct rs2 ≠ meanOfFoldPercents rs2 :=
  C1_summary_row [sampleFold] (by simp)
    (by simp [grandTotal, confTotalRaw, sumBy, sampleFold])

/-- One row of a loaded per-window data set: a subject identifier (the TagID
column) plus its feature/target values. -/
structure Row where
  tagID : String
  values : List ℚ

/-- `birds = set(data.TagID)`: the distinct subject identifiers of the data
set, each exactly once. -/
def birds (data : List Row) : List String :=
  (data.map Row.tagID).dedup

/-- One leave-one-subject-out fold: the held-out bird, the training rows and
the test rows. -/
structure Fold where
  heldOut : String
  train : List Row
  test : List Row

/-- Modelled from the spec: the module `core` (not present under src/)
receives `(data, bird, ...)` in `core.build_train_evaluate_dask` and, per
spec §3 and §4.3, trains on all rows whose subject differs from the withheld
bird and evaluates on the withheld bird's rows. -/
def foldFor (data : List Row) (bird : String) : Fold :=
  ⟨bird, data.filter (fun r => r.tagID ≠ bird),
    data.filter (fun r => r.tagID = bird)⟩

/-- The folds scheduled by the driver: one per element of `birds`
(`pool.starmap(core.build_train_evaluate_dask, [... for bird in birds])`). -/
def folds (data : List Row) : List Fold :=
  (birds data).map (foldFor data)

/-- C3: the driver schedules exactly one fold per distinct subject: the
held-out subjects across folds are exactly the distinct subject identifiers
(no duplicates, no omissions), and each fold trains on exactly the rows of
other subjects and tests on exactly the held-out subject's rows. -/
theorem C3_folds_partition_subjects (data : List Row) (s : String)
    (fl : Fold) (hfl : fl ∈ folds data) (r : Row) :
    ((folds data).map Fold.heldOut).Nodup ∧
    (s ∈ (folds data).map Fold.heldOut ↔ s ∈ data.map Row.tagID) ∧
    (r ∈ fl.train ↔ r ∈ data ∧ r.tagID ≠ fl.heldOut) ∧
    (r ∈ fl.test ↔ r ∈ data ∧ r.tagID = fl.heldOut) := by
  have hmap : (folds data).map Fold.heldOut = birds data := by
    simp [folds, List.map_map, Function.comp_def, foldFor, birds]
  refine ⟨?_, ?_, ?_, ?_⟩
  · rw [hmap]; exact (data.map Row.tagID).nodup_dedup
  · rw [hmap]; exact List.mem_dedup
  · obtain ⟨b, hb, rfl⟩ := List.mem_map.mp hfl
    simp [foldFor]
  · obtain ⟨b, hb, rfl⟩ := List.mem_map.mp hfl
    simp [foldFor]

/-- Witness for C3 on a concrete two-subject data set. -/
theorem C3_folds_partition_subjects_witness :
    ((folds [⟨"A", []⟩, ⟨"B", []⟩]).map Fold.heldOut).Nodup ∧
    ("A" ∈ (folds [⟨"A", []⟩, ⟨"B", []⟩]).map Fold.heldOut ↔
      "A" ∈ [Row.mk "A" [], Row.mk "B" []].map Row.tagID) ∧
    (⟨"A", []⟩ ∈ (foldFor [⟨"A", []⟩, ⟨"B", []⟩] "A").train ↔
      (⟨"A", []⟩ : Row) ∈ [Row.mk "A" [], Row.mk "B" []] ∧
        Row.tagID ⟨"A", []⟩ ≠ (foldFor [⟨"A", []⟩, ⟨"B", []⟩] "A").heldOut) ∧
    (⟨"A", []⟩ ∈ (foldFor [⟨"A", []⟩, ⟨"B", []⟩] "A").test ↔
      (⟨"A", []⟩ : Row) ∈ [Row.mk "A" [], Row.mk "B" []] ∧
        Row.tagID ⟨"A", []⟩ = (foldFor [⟨"A", []⟩, ⟨"B", []⟩] "A").heldOut) :=
  C3_folds_partition_subjects [⟨"A", []⟩, ⟨"B", []⟩] "A"
    (foldFor [⟨"A", []⟩, ⟨"B", []⟩] "A")
    (by simp [folds, birds]) ⟨"A", []⟩

/-- `in_shape = np.zeros(len(set(data.columns) - {ycol, *drop})).shape`: the
input-layer width of the full model is the cardinality of the set difference
of the data set's columns and the target-plus-drop set. -/
def inputWidth (cols : List String) (ycol : String) (drop : List String) : ℕ :=
  (cols.toFinset \ insert ycol drop.toFinset).card

/-- Deduplicating a list does not change its finset of elements. -/
theorem dedup_toFinset (l : List String) : l.dedup.toFinset = l.toFinset := by
  ext x
  simp [List.mem_dedup]

/-- C9: the full model's input-layer width is the count of columns remaining
after removing the target column and the drop-list, computed as a set
difference, so duplicate columns and drop-list entries absent from the
columns do not change the count. -/
theorem C9_input_layer_width (cols : List String) (ycol : String)
    (drop : List String) (c : String) (hc : c ∈ cols) (d : String)
    (hd : d ∉ cols) :
    inputWidth cols ycol drop =
      (cols.dedup.filter (fun x => ¬(x = ycol ∨ x ∈ drop))).length ∧
    inputWidth cols ycol drop = inputWidth cols.dedup ycol drop ∧
    inputWidth (c :: cols) ycol drop = inputWidth cols ycol drop ∧
    inputWidth cols ycol (d :: drop) = inputWidth cols ycol drop := by
  refine ⟨?_, ?_, ?_, ?_⟩
  · rw [inputWidth, Finset.sdiff_eq_filter]
    have hnd : (cols.dedup.filter (fun x => ¬(x = ycol ∨ x ∈ drop))).Nodup :=
      cols.nodup_dedup.filter _
    rw [← List.toFinset_card_of_nodup hnd, List.toFinset_filter,
      dedup_toFinset cols]
    congr 1
    apply Finset.filter_congr
    intro x _
    simp
  · rw [inputWidth, inputWidth, dedup_toFinset cols]
  · rw [inputWidth, inputWidth, List.toFinset_cons,
      Finset.insert_eq_self.mpr (List.mem_toFinset.mpr hc)]
  · rw [inputWidth, inputWidth, List.toFinset_cons, Finset.Insert.comm,
      Finset.sdiff_insert, Finset.erase_eq_of_not_mem]
    intro hmem
    exact hd (List.mem_toFinset.mp (Finset.mem_sdiff.mp hmem).1)

/-- Witness for C9 on the default configuration's column layout. -/
theorem C9_input_layer_width_witness :
    inputWidth ["TagID", "ix", "X", "Dive"] "Dive" ["TagID", "ix"] =
      (["TagID", "ix", "X", "Dive"].dedup.filter
        (fun x => ¬(x = "Dive" ∨ x ∈ ["TagID", "ix"]))).length ∧
    inputWidth ["TagID", "ix", "X", "Dive"] "Dive" ["TagID", "ix"] =
      inputWidth ["TagID", "ix", "X", "Dive"].dedup "Dive" ["TagID", "ix"] ∧
    inputWidth ("X" :: ["TagID", "ix", "X", "Dive"]) "Dive" ["TagID", "ix"] =
      inputWidth ["TagID", "ix", "X", "Dive"] "Dive" ["TagID", "ix"] ∧
    inputWidth ["TagID", "ix", "X", "Dive"] "Dive"
        ("Depth" :: ["TagID", "ix"]) =
      inputWidth ["TagID", "ix", "X", "Dive"] "Dive" ["TagID", "ix"] :=
  C9_input_layer_width ["TagID", "ix", "X", "Dive"] "Dive" ["TagID", "ix"]
    "X" (by simp) "Depth" (by simp)

/-- Lexicographic code-point comparison of character lists: the order Python
uses to compare strings, hence the order applied by
`out_stats.sort_index(ascending=True)` to the string-labelled index. -/
def charsLe : List Char → List Char → Bool
  | [], _ => true
  | _ :: _, [] => false
  | a :: as, b :: bs =>
    if a.toNat < b.toNat then true
    else if b.toNat < a.toNat then false
    else charsLe as bs

/-- Lexicographic comparison of two index labels. -/
def keyLe (a b : String) : Bool :=
  charsLe a.data b.data

/-- Whether a directory entry matches the glob pattern of
`glob.glob(f'{indir}{dtype}*.csv')`: the name starts with the data-type tag
and what follows the tag ends in `.csv`. -/
def globMatch (dtype name : String) : Bool :=
  dtype.data.isPrefixOf name.data &&
    ".csv".data.isSuffixOf (name.data.drop dtype.data.length)

/-- `files = glob.glob(f'{indir}{dtype}*.csv')`, split into the directory
listing and the pattern: the entries matching the glob, in discovery order. -/
def discoverFiles (dtype : String) (listing : List String) : List String :=
  listing.filter (globMatch dtype)

/-- The discovered entries as full paths (glob returns paths carrying the
`indir` prefix of its pattern). -/
def filesOf (indir dtype : String) (listing : List String) : List String :=
  (discoverFiles dtype listing).map (fun n => indir ++ n)

/-- Modelled from the spec: the input naming convention
`<dtype><window-id>_reduced*.csv` of spec §6 (no code under src/ defines it;
the script's glob is broader) — the data-type tag, then a nonempty numeric
window id, then the literal `_reduced`, ending in `.csv`. -/
def conventionMatch (dtype name : String) : Bool :=
  dtype.data.isPrefixOf name.data &&
    !((name.data.drop dtype.data.length).takeWhile Char.isDigit).isEmpty &&
    "_reduced".data.isPrefixOf
      ((name.data.drop dtype.data.length).dropWhile Char.isDigit) &&
    ".csv".data.isSuffixOf (name.data.drop dtype.data.length)

/-- One attempted match of the regex `/{dtype}(\d+)_reduced` at the head of
`s`: a literal slash and the data-type tag, then the maximal nonempty digit
run (the greedy `\d+` capture group), then the literal `_reduced`. -/
def matchAt (dtype s : List Char) : Option (List Char) :=
  if ('/' :: dtype).isPrefixOf s &&
      !((s.drop (dtype.length + 1)).takeWhile Char.isDigit).isEmpty &&
      "_reduced".data.isPrefixOf
        ((s.drop (dtype.length + 1)).dropWhile Char.isDigit) then
    some ((s.drop (dtype.length + 1)).takeWhile Char.isDigit)
  else none

/-- `re.search`: try the pattern at each successive start position and return
the leftmost match's capture group. -/
def searchWdw (dtype : String) : List Char → Option (List Char)
  | [] => none
  | c :: cs =>
    match matchAt dtype.data (c :: cs) with
    | some digits => some digits
    | none => searchWdw dtype cs

/-- `wdw = re.search(fr"/{dtype}(\d+)_reduced", f).group(1)` as a partial
operation: `none` models the `AttributeError` that `.group` raises on a
failed search. -/
def extractWindow (dtype path : String) : Option String :=
  (searchWdw dtype path.data).map String.mk

/-- The six-field configuration produced by `parse_arguments`. -/
structure Config where
  indir : String
  outdir : String
  dtype : String
  ycol : String
  drop : List String
  epochs : ℕ

/-- The three assertions at the head of `main`: the data type is one of the
two recognized values and both directory paths end in a forward slash. -/
def validateConfig (cfg : Config) : Except String Unit :=
  if !(cfg.dtype = "ACC" || cfg.dtype = "IMM") then
    .error "dtype arg must be one of ACC/IMM"
  else if !("/".data.isSuffixOf cfg.indir.data) then
    .error "indir arg must end with a forward slash"
  else if !("/".data.isSuffixOf cfg.outdir.data) then
    .error "outdir arg must end with a forward slash"
  else
    .ok ()

/-- `out_stats.loc[wdw] = row`: pandas label assignment on the summary table,
overwriting in place when the label already exists and appending otherwise. -/
def upsertRow : List (String × List ℚ) → String → List ℚ →
    List (String × List ℚ)
  | [], w, row => [(w, row)]
  | (k, v) :: t, w, row =>
    if k = w then (w, row) :: t else (k, v) :: upsertRow t w row

/-- Label lookup in the summary table. -/
def lookupRow : List (String × List ℚ) → String → Option (List ℚ)
  | [], _ => none
  | (k, v) :: t, w => if k = w then some v else lookupRow t w

/-- `out_stats.sort_index(ascending=True, axis=0)`: sort the summary table by
its string index labels, ascending. -/
def sortByKey (tbl : List (String × List ℚ)) : List (String × List ℚ) :=
  List.insertionSort (fun p q => keyLe p.1 q.1 = true) tbl

/-- The per-file loop of `main`, restricted to its effect on the running
`out_stats` table: extract the window id from the path (an unmatched pattern
aborts the run), obtain the per-fold records for the file (the external
training step, supplied here by `oracle`), and assign the summary row at
label `wdw`. -/
def processFiles (dtype : String) (oracle : String → List FoldRecord) :
    List String → List (String × List ℚ) →
    Except String (List (String × List ℚ))
  | [], tbl => .ok tbl
  | f :: fs, tbl =>
    match extractWindow dtype f with
    | none => .error (String.append "no window id in " f)
    | some w =>
      processFiles dtype oracle fs (upsertRow tbl w (summaryRow (oracle f)))

/-- `main`: validate the configuration, glob the input directory, process
each discovered file in discovery order, then sort the summary table by
index label and write it out. -/
def runMain (cfg : Config) (listing : List String)
    (oracle : String → List FoldRecord) :
    Except String (List (String × List ℚ)) :=
  match validateConfig cfg with
  | .error e => .error e
  | .ok _ =>
    (processFiles cfg.dtype oracle (filesOf cfg.indir cfg.dtype listing)
      []).map sortByKey

/-- Numeric value of a digit-string window identifier. -/
def windowNat (s : String) : ℕ :=
  s.data.foldl (fun n c => 10 * n + (c.toNat - 48)) 0

theorem charsLe_total : ∀ as bs : List Char,
    charsLe as bs = true ∨ charsLe bs as = true
  | [], _ => Or.inl rfl
  | _ :: _, [] => Or.inr rfl
  | a :: as, b :: bs => by
    rcases Nat.lt_trichotomy a.toNat b.toNat with h | h | h
    · left; simp [charsLe, h]
    · rcases charsLe_total as bs with ih | ih
      · left; simp [charsLe, h, ih]
      · right; simp [charsLe, h.symm, ih]
    · right; simp [charsLe, h]

theorem charsLe_trans : ∀ as bs cs : List Char,
    charsLe as bs = true → charsLe bs cs = true → charsLe as cs = true
  | [], _, _ => fun _ _ => rfl
  | _ :: _, [], _ => fun h _ => by simp [charsLe] at h
  | _ :: _, _ :: _, [] => fun _ h => by simp [charsLe] at h
  | a :: as, b :: bs, c :: cs => fun h1 h2 => by
    simp only [charsLe] at h1 h2 ⊢
    split_ifs at h1 h2 ⊢ with hab hba hbc hcb hac hca
    all_goals first
      | rfl
      | omega
      | (exact charsLe_trans as bs cs h1 h2)

instance : IsTotal (String × List ℚ) (fun p q => keyLe p.1 q.1 = true) :=
  ⟨fun p q => charsLe_total p.1.data q.1.data⟩

instance : IsTrans (String × List ℚ) (fun p q => keyLe p.1 q.1 = true) :=
  ⟨fun _ _ _ h1 h2 => charsLe_trans _ _ _ h1 h2⟩

/-- C2 fails as stated: the window id is the captured digit *string* and
pandas sorts the string-labelled index lexicographically, so with windows 2
and 10 the written table is ordered 10 before 2 — not ascending in the
numeric window size. -/
theorem C2_counterexample :
    (runMain ⟨"in/", "out/", "ACC", "Dive", ["TagID", "ix"], 50⟩
        ["ACC2_reduced.csv", "ACC10_reduced.csv"] (fun _ => [])).map
      (fun tbl => tbl.map Prod.fst) = Except.ok ["10", "2"] ∧
    ¬ List.Sorted (· ≤ ·) (["10", "2"].map windowNat) :=
  ⟨rfl, by decide⟩

/-- C2 amended: the cross-window summary table is written sorted ascending by
the window-id label in lexicographic string order (which coincides with
numeric order only when the ids have equal digit counts). -/
theorem C2_summary_sorted_lex (cfg : Config) (listing : List String)
    (oracle : String → List FoldRecord) (tbl : List (String × List ℚ))
    (h : runMain cfg listing oracle = Except.ok tbl) :
    List.Sorted (fun p q : String × List ℚ => keyLe p.1 q.1 = true) tbl := by
  unfold runMain at h
  cases hval : validateConfig cfg with
  | error e => rw [hval] at h; exact absurd h (by simp)
  | ok u =>
    rw [hval] at h
    cases hp : processFiles cfg.dtype oracle
        (filesOf cfg.indir cfg.dtype listing) [] with
    | error e => rw [hp] at h; exact absurd h (by simp [Except.map])
    | ok t0 =>
      rw [hp] at h
      have : tbl = sortByKey t0 := by
        simpa [Except.map] using h.symm
      rw [this, sortByKey]
      exact List.sorted_insertionSort _ t0

/-- Witness for the amended C2 on a concrete single-file run. -/
theorem C2_summary_sorted_lex_witness :
    List.Sorted (fun p q : String × List ℚ => keyLe p.1 q.1 = true)
      [("2", summaryRow [])] :=
  C2_summary_sorted_lex ⟨"in/", "out/", "ACC", "Dive", ["TagID", "ix"], 50⟩
    ["ACC2_reduced.csv"] (fun _ => []) [("2", summaryRow [])] rfl

/-- Semantics of the glob test: a name matches `{dtype}*.csv` exactly when it
decomposes as the tag, then anything, then `.csv`. -/
theorem globMatch_iff (dtype n : String) :
    globMatch dtype n = true ↔
      ∃ mid : List Char, n.data = dtype.data ++ mid ++ ".csv".data := by
  constructor
  · intro h
    rw [globMatch, Bool.and_eq_true] at h
    obtain ⟨rest, hrest⟩ := List.isPrefixOf_iff_prefix.mp h.1
    obtain ⟨mid, hmid⟩ := List.isSuffixOf_iff_suffix.mp h.2
    have hdrop : n.data.drop dtype.data.length = rest := by
      rw [← hrest, List.drop_left]
    refine ⟨mid, ?_⟩
    rw [List.append_assoc, hmid, hdrop, hrest]
  · rintro ⟨mid, hmid⟩
    rw [globMatch, Bool.and_eq_true]
    constructor
    · exact List.isPrefixOf_iff_prefix.mpr
        ⟨mid ++ ".csv".data, by rw [hmid, List.append_assoc]⟩
    · refine List.isSuffixOf_iff_suffix.mpr ⟨mid, ?_⟩
      rw [hmid, List.append_assoc, List.drop_left]

/-- C5 fails as stated: the glob `{dtype}*.csv` is broader than the
`<dtype><window-id>_reduced*.csv` convention, so discovery also returns files
outside the convention, such as `ACCnotes.csv`. -/
theorem C5_counterexample :
    discoverFiles "ACC" ["ACCnotes.csv"] = ["ACCnotes.csv"] ∧
    conventionMatch "ACC" "ACCnotes.csv" = false := by
  constructor <;> rfl

/-- C5 amended: discovery returns exactly the directory entries matching the
glob `<dtype>*.csv` — the tag, then anything, then `.csv`.  Every file of the
`<dtype><window-id>_reduced*.csv` convention matches this glob, but files
outside the convention may be returned as well. -/
theorem C5_discovery_matches_glob (dtype : String) (listing : List String)
    (n : String) :
    (n ∈ discoverFiles dtype listing ↔
      n ∈ listing ∧ ∃ mid : List Char,
        n.data = dtype.data ++ mid ++ ".csv".data) ∧
    (conventionMatch dtype n = true → globMatch dtype n = true) := by
  constructor
  · rw [discoverFiles, List.mem_filter, globMatch_iff]
  · intro h
    simp only [conventionMatch, Bool.and_eq_true] at h
    rw [globMatch, Bool.and_eq_true]
    exact ⟨h.1.1.1, h.2⟩

/-- Witness for the amended C5 at a concrete conventional file name. -/
theorem C5_discovery_matches_glob_witness :
    ("ACC5_reduced.csv" ∈ discoverFiles "ACC" ["ACC5_reduced.csv"] ↔
      "ACC5_reduced.csv" ∈ ["ACC5_reduced.csv"] ∧ ∃ mid : List Char,
        "ACC5_reduced.csv".data = "ACC".data ++ mid ++ ".csv".data) ∧
    (conventionMatch "ACC" "ACC5_reduced.csv" = true →
      globMatch "ACC" "ACC5_reduced.csv" = true) :=
  C5_discovery_matches_glob "ACC" ["ACC5_reduced.csv"] "ACC5_reduced.csv"

/-- C8: discovery for data type ACC never returns a file whose name begins
with the IMM prefix, and vice versa: the glob anchors the name to the
requested tag, and the two tags differ in their first character. -/
theorem C8_no_cross_type_files (listing : List String) (n m : String)
    (hn : n ∈ discoverFiles "ACC" listing)
    (hm : m ∈ discoverFiles "IMM" listing) :
    "IMM".data.isPrefixOf n.data = false ∧
    "ACC".data.isPrefixOf m.data = false := by
  have h1 : globMatch "ACC" n = true := (List.mem_filter.mp hn).2
  have h2 : globMatch "IMM" m = true := (List.mem_filter.mp hm).2
  rw [globMatch, Bool.and_eq_true] at h1 h2
  obtain ⟨t, ht⟩ := List.isPrefixOf_iff_prefix.mp h1.1
  obtain ⟨s, hs⟩ := List.isPrefixOf_iff_prefix.mp h2.1
  constructor
  · rw [← ht]
    show List.isPrefixOf ('I' :: 'M' :: 'M' :: [])
      (('A' :: 'C' :: 'C' :: []) ++ t) = false
    simp [List.isPrefixOf]
  · rw [← hs]
    show List.isPrefixOf ('A' :: 'C' :: 'C' :: [])
      (('I' :: 'M' :: 'M' :: []) ++ s) = false
    simp [List.isPrefixOf]

/-- Witness for C8 on a concrete mixed-type directory listing. -/
theorem C8_no_cross_type_files_witness :
    "IMM".data.isPrefixOf "ACC5_reduced.csv".data = false ∧
    "ACC".data.isPrefixOf "IMM5_reduced.csv".data = false :=
  C8_no_cross_type_files ["ACC5_reduced.csv", "IMM5_reduced.csv"]
    "ACC5_reduced.csv" "IMM5_reduced.csv" (by decide) (by decide)

/-- The concrete configuration of the worked examples: default directories
and the ACC data type. -/
def cfgACC : Config := ⟨"in/", "out/", "ACC", "Dive", ["TagID", "ix"], 50⟩

/-- Splitting a character list as a digit run followed by a non-digit:
`takeWhile isDigit` keeps exactly the run and `dropWhile isDigit` the rest. -/
theorem takeWhile_digit_run : ∀ (d : List Char) (x : Char) (t : List Char),
    (∀ c ∈ d, c.isDigit = true) → x.isDigit = false →
    (d ++ x :: t).takeWhile Char.isDigit = d ∧
    (d ++ x :: t).dropWhile Char.isDigit = x :: t
  | [], x, t, _, hx => by
    simp [List.takeWhile, List.dropWhile, hx]
  | c :: d, x, t, hd, hx => by
    have hc : c.isDigit = true := hd c (List.mem_cons_self c d)
    have ih := takeWhile_digit_run d x t
      (fun e he => hd e (List.mem_cons_of_mem c he)) hx
    simp [List.takeWhile_cons, List.dropWhile_cons, hc, ih.1, ih.2]

/-- One occurrence of the regex pattern `/{dtype}(\d+)_reduced` with capture
group `digits`, followed by arbitrary trailing characters `t`. -/
def patternOcc (dtype digits t : List Char) : List Char :=
  '/' :: (dtype ++ digits ++ "_reduced".data ++ t)

/-- The canonical append shape of a pattern occurrence. -/
theorem patternOcc_eq (dtype digits t : List Char) :
    patternOcc dtype digits t =
      ('/' :: dtype) ++ (digits ++ '_' :: ("reduced".data ++ t)) := by
  have hu : "_reduced".data = '_' :: "reduced".data := rfl
  rw [patternOcc, hu]
  simp [List.append_assoc]

/-- A successful `matchAt` certifies an occurrence of the pattern
`/{dtype}(\d+)_reduced` at the head of the scanned suffix. -/
theorem matchAt_some (dtype s digits : List Char)
    (h : matchAt dtype s = some digits) :
    ∃ t, s = patternOcc dtype digits t ∧
      digits ≠ [] ∧ ∀ c ∈ digits, c.isDigit = true := by
  rw [matchAt] at h
  split_ifs at h with hcond
  · simp only [Bool.and_eq_true] at hcond
    obtain ⟨⟨hpre, hne⟩, hred⟩ := hcond
    obtain ⟨r, hr⟩ := List.isPrefixOf_iff_prefix.mp hpre
    have hdrop : s.drop (dtype.length + 1) = r := by
      rw [← hr]; exact List.drop_left ('/' :: dtype) r
    obtain ⟨t, ht⟩ := List.isPrefixOf_iff_prefix.mp hred
    have hdig : digits = (s.drop (dtype.length + 1)).takeWhile Char.isDigit :=
      (Option.some.injEq _ _ ▸ h).symm
    have h1 : r.takeWhile Char.isDigit = digits := by
      rw [hdrop] at hdig; exact hdig.symm
    have h2 : r.dropWhile Char.isDigit = "_reduced".data ++ t := by
      rw [hdrop] at ht; exact ht.symm
    refine ⟨t, ?_, ?_, ?_⟩
    · rw [← hr, patternOcc, List.cons_append]
      congr 1
      have hsplit := List.takeWhile_append_dropWhile Char.isDigit r
      rw [h1, h2] at hsplit
      rw [← hsplit]
      simp [List.append_assoc]
    · intro hnil
      rw [hnil] at h1
      rw [hdrop] at hne
      simp [← h1] at hne
    · intro c hc
      rw [hdig] at hc
      exact List.mem_takeWhile_imp hc

/-- Conversely, an occurrence of the pattern at the head of the scanned
suffix makes `matchAt` succeed. -/
theorem matchAt_of_decomp (dtype digits t : List Char)
    (hne : digits ≠ []) (hdig : ∀ c ∈ digits, c.isDigit = true) :
    matchAt dtype (patternOcc dtype digits t) = some digits := by
  have hu : "_reduced".data = '_' :: "reduced".data := rfl
  have hsplit := takeWhile_digit_run digits '_' ("reduced".data ++ t) hdig rfl
  rw [patternOcc_eq, matchAt]
  have hdrop : (('/' :: dtype) ++ (digits ++ '_' :: ("reduced".data ++ t))).drop
      (dtype.length + 1) = digits ++ '_' :: ("reduced".data ++ t) :=
    List.drop_left ('/' :: dtype) _
  rw [hdrop, hsplit.1, hsplit.2]
  have hpre : ('/' :: dtype).isPrefixOf
      (('/' :: dtype) ++ (digits ++ '_' :: ("reduced".data ++ t))) = true :=
    List.isPrefixOf_iff_prefix.mpr ⟨_, rfl⟩
  rw [hpre]
  have hred : "_reduced".data.isPrefixOf ('_' :: ("reduced".data ++ t)) =
      true := by
    refine List.isPrefixOf_iff_prefix.mpr ⟨t, ?_⟩
    rw [hu]; simp
  rw [hred]
  simp [hne]

/-- `re.search` succeeds on any string containing an occurrence of the
pattern somewhere. -/
theorem searchWdw_ne_none (dtype : String) :
    ∀ pre l₂ : List Char, matchAt dtype.data l₂ ≠ none →
    searchWdw dtype (pre ++ l₂) ≠ none
  | [], l₂, hm => by
    cases l₂ with
    | nil => exact absurd rfl hm
    | cons c cs =>
      rw [List.nil_append, searchWdw]
      cases hmc : matchAt dtype.data (c :: cs) with
      | none => exact absurd hmc hm
      | some d => simp
  | p :: pre, l₂, hm => by
    rw [List.cons_append, searchWdw]
    cases hmc : matchAt dtype.data (p :: (pre ++ l₂)) with
    | none => exact searchWdw_ne_none dtype pre l₂ hm
    | some d => simp

/-- If any file in the remaining list has no extractable window id, the
per-file loop aborts with an error. -/
theorem processFiles_error_of_none (dtype : String)
    (oracle : String → List FoldRecord) :
    ∀ (fs : List String) (tbl : List (String × List ℚ)) (f : String),
    f ∈ fs → extractWindow dtype f = none →
    ∃ e, processFiles dtype oracle fs tbl = Except.error e
  | [], _, _, hmem, _ => absurd hmem (List.not_mem_nil _)
  | g :: gs, tbl, f, hmem, hnone => by
    cases hg : extractWindow dtype g with
    | none => exact ⟨String.append "no window id in " g, by rw [processFiles, hg]⟩
    | some w =>
      rcases List.mem_cons.mp hmem with rfl | hmem'
      · rw [hg] at hnone; exact absurd hnone (by simp)
      · obtain ⟨e, he⟩ := processFiles_error_of_none dtype oracle gs
          (upsertRow tbl w (summaryRow (oracle g))) f hmem' hnone
        exact ⟨e, by rw [processFiles, hg]; exact he⟩

/-- C6: a discovered file whose path does not contain the
`/{dtype}(digits)_reduced` token makes the window-id extraction fail, and the
failure is fatal: the whole run aborts with an error instead of skipping the
file. -/
theorem C6_unmatched_file_aborts (cfg : Config) (listing : List String)
    (oracle : String → List FoldRecord) (f : String)
    (hf : f ∈ filesOf cfg.indir cfg.dtype listing)
    (hnone : extractWindow cfg.dtype f = none) :
    (¬ ∃ pre digits t : List Char,
      f.data = pre ++ patternOcc cfg.dtype.data digits t ∧
        digits ≠ [] ∧ ∀ c ∈ digits, c.isDigit = true) ∧
    ∃ e, runMain cfg listing oracle = Except.error e := by
  have hsearch : searchWdw cfg.dtype f.data = none :=
    Option.map_eq_none'.mp hnone
  constructor
  · rintro ⟨pre, digits, t, heq, hne, hdig⟩
    have hmatch := matchAt_of_decomp cfg.dtype.data digits t hne hdig
    have := searchWdw_ne_none cfg.dtype pre
      (patternOcc cfg.dtype.data digits t)
      (by rw [hmatch]; simp)
    rw [← heq] at this
    exact this hsearch
  · cases hval : validateConfig cfg with
    | error e => exact ⟨e, by rw [runMain, hval]⟩
    | ok u =>
      obtain ⟨e, he⟩ := processFiles_error_of_none cfg.dtype oracle
        (filesOf cfg.indir cfg.dtype listing) [] f hf hnone
      exact ⟨e, by rw [runMain, hval, he]; rfl⟩

/-- Witness for C6 on a concrete glob-matched file without the window-id
token. -/
theorem C6_unmatched_file_aborts_witness :
    (¬ ∃ pre digits t : List Char,
      "in/ACCnotes.csv".data =
          pre ++ patternOcc (Config.dtype cfgACC).data digits t ∧
        digits ≠ [] ∧ ∀ c ∈ digits, c.isDigit = true) ∧
    ∃ e, runMain cfgACC ["ACCnotes.csv"] (fun _ => []) = Except.error e :=
  C6_unmatched_file_aborts cfgACC ["ACCnotes.csv"] (fun _ => [])
    "in/ACCnotes.csv" (by decide) (by decide)

/-- C7: a configuration passes validation exactly when its data type is one
of the two recognized values and both directory paths end in a separator; an
invalid configuration aborts the run with the validation error regardless of
the directory contents or the training outcomes (so before any I/O), while a
valid one proceeds into the per-file processing. -/
theorem C7_config_validation (cfg : Config) (listing : List String)
    (oracle : String → List FoldRecord) :
    (validateConfig cfg = Except.ok () ↔
      (cfg.dtype = "ACC" ∨ cfg.dtype = "IMM") ∧
      "/".data.isSuffixOf cfg.indir.data = true ∧
      "/".data.isSuffixOf cfg.outdir.data = true) ∧
    (validateConfig cfg ≠ Except.ok () →
      ∃ e, ∀ (listing2 : List String) (oracle2 : String → List FoldRecord),
        runMain cfg listing2 oracle2 = Except.error e) ∧
    (validateConfig cfg = Except.ok () →
      runMain cfg listing oracle =
        (processFiles cfg.dtype oracle (filesOf cfg.indir cfg.dtype listing)
          []).map sortByKey) := by
  refine ⟨?_, ?_, ?_⟩
  · rw [validateConfig]
    split_ifs with h1 h2 h3 <;> simp_all
    all_goals tauto
  · intro hne
    cases hval : validateConfig cfg with
    | error e => exact ⟨e, fun l2 o2 => by rw [runMain, hval]⟩
    | ok u => exact absurd (by rw [hval]) hne
  · intro hok
    rw [runMain, hok]

/-- Witness for C7 at the concrete valid ACC configuration. -/
theorem C7_config_validation_witness :
    (validateConfig cfgACC = Except.ok () ↔
      (Config.dtype cfgACC = "ACC" ∨ Config.dtype cfgACC = "IMM") ∧
      "/".data.isSuffixOf (Config.indir cfgACC).data = true ∧
      "/".data.isSuffixOf (Config.outdir cfgACC).data = true) ∧
    (validateConfig cfgACC ≠ Except.ok () →
      ∃ e, ∀ (listing2 : List String) (oracle2 : String → List FoldRecord),
        runMain cfgACC listing2 oracle2 = Except.error e) ∧
    (validateConfig cfgACC = Except.ok () →
      runMain cfgACC ["ACC5_reduced.csv"] (fun _ => []) =
        (processFiles (Config.dtype cfgACC) (fun _ => [])
          (filesOf (Config.indir cfgACC) (Config.dtype cfgACC)
            ["ACC5_reduced.csv"]) []).map sortByKey) :=
  C7_config_validation cfgACC ["ACC5_reduced.csv"] (fun _ => [])

/-- Lookup after a label assignment: the assigned label now maps to the new
row and every other label is unchanged. -/
theorem lookupRow_upsertRow :
    ∀ (tbl : List (String × List ℚ)) (w w' : String) (row : List ℚ),
    lookupRow (upsertRow tbl w row) w' =
      if w' = w then some row else lookupRow tbl w'
  | [], w, w', row => by
    simp [upsertRow, lookupRow, eq_comm]
  | (k, v) :: t, w, w', row => by
    rw [upsertRow]
    by_cases hk : k = w
    · rw [if_pos hk, lookupRow, lookupRow]
      by_cases h2 : w' = w
      · rw [if_pos h2, if_pos h2.symm]
      · rw [if_neg h2, if_neg (fun hh : w = w' => h2 hh.symm),
          if_neg (fun hh : k = w' => h2 (hh.symm.trans hk))]
    · rw [if_neg hk, lookupRow, lookupRow, lookupRow_upsertRow t w w' row]
      by_cases h1 : k = w'
      · by_cases h2 : w' = w
        · exact absurd (h1.trans h2) hk
        · simp [h1, h2]
      · by_cases h2 : w' = w <;> simp [h1, h2, hk]

/-- Any label present after an assignment was already present or is the
assigned label. -/
theorem mem_keys_upsertRow :
    ∀ (tbl : List (String × List ℚ)) (w : String) (row : List ℚ) (x : String),
    x ∈ (upsertRow tbl w row).map Prod.fst → x ∈ tbl.map Prod.fst ∨ x = w
  | [], w, row, x => by
    simp [upsertRow]
  | (k, v) :: t, w, row, x => by
    rw [upsertRow]
    by_cases hk : k = w
    · rw [if_pos hk]
      intro hx
      rcases List.mem_cons.mp hx with h | h
      · exact Or.inr h
      · exact Or.inl (List.mem_cons_of_mem k h)
    · rw [if_neg hk]
      intro hx
      rcases List.mem_cons.mp hx with h | h
      · exact Or.inl (h ▸ List.mem_cons_self k _)
      · rcases mem_keys_upsertRow t w row x h with h' | h'
        · exact Or.inl (List.mem_cons_of_mem k h')
        · exact Or.inr h'

/-- Label assignment preserves distinctness of the table's index labels. -/
theorem nodup_keys_upsertRow :
    ∀ (tbl : List (String × List ℚ)) (w : String) (row : List ℚ),
    (tbl.map Prod.fst).Nodup → ((upsertRow tbl w row).map Prod.fst).Nodup
  | [], w, row, _ => by simp [upsertRow]
  | (k, v) :: t, w, row, hnd => by
    rw [upsertRow]
    rw [List.map_cons, List.nodup_cons] at hnd
    by_cases hk : k = w
    · rw [if_pos hk, List.map_cons, List.nodup_cons]
      exact ⟨hk ▸ hnd.1, hnd.2⟩
    · rw [if_neg hk, List.map_cons, List.nodup_cons]
      refine ⟨fun hmem => ?_, nodup_keys_upsertRow t w row hnd.2⟩
      rcases mem_keys_upsertRow t w row k hmem with h | h
      · exact hnd.1 h
      · exact hk h

/-- The per-file loop keeps the summary-table labels distinct. -/
theorem processFiles_nodup_keys (dtype : String)
    (oracle : String → List FoldRecord) :
    ∀ (fs : List String) (tbl out : List (String × List ℚ)),
    processFiles dtype oracle fs tbl = Except.ok out →
    (tbl.map Prod.fst).Nodup → (out.map Prod.fst).Nodup
  | [], tbl, out, h, hnd => by
    rw [processFiles] at h
    injection h with h
    exact h ▸ hnd
  | f :: fs, tbl, out, h, hnd => by
    rw [processFiles] at h
    cases hext : extractWindow dtype f with
    | none => rw [hext] at h; exact absurd h (by simp)
    | some w =>
      rw [hext] at h
      exact processFiles_nodup_keys dtype oracle fs _ out h
        (nodup_keys_upsertRow tbl w _ hnd)

/-- After the per-file loop, each label maps to the summary row of the LAST
processed file that yielded that window id (falling back to the initial
table for untouched labels). -/
theorem processFiles_lookup_last (dtype : String)
    (oracle : String → List FoldRecord) :
    ∀ (fs : List String) (tbl out : List (String × List ℚ)),
    processFiles dtype oracle fs tbl = Except.ok out → ∀ w : String,
    lookupRow out w =
      (((fs.filter (fun g => extractWindow dtype g = some w)).getLast?).map
        (fun f => summaryRow (oracle f))).or (lookupRow tbl w)
  | [], tbl, out, h, w => by
    rw [processFiles] at h
    injection h with h
    subst h
    simp
  | f :: fs, tbl, out, h, w => by
    rw [processFiles] at h
    cases hext : extractWindow dtype f with
    | none => rw [hext] at h; exact absurd h (by simp)
    | some w0 =>
      rw [hext] at h
      have ih := processFiles_lookup_last dtype oracle fs _ out h w
      rw [lookupRow_upsertRow tbl w0 w (summaryRow (oracle f))] at ih
      rw [List.filter_cons]
      by_cases hw : w = w0
      · have hp : (fun g => decide (extractWindow dtype g = some w)) f = true := by
          simp [hext, hw]
        rw [if_pos hp]
        cases hfilter : fs.filter (fun g => extractWindow dtype g = some w) with
        | nil =>
          rw [hfilter, if_pos hw] at ih
          simp [ih]
        | cons x xs =>
          rw [hfilter] at ih
          obtain ⟨y, hy⟩ := Option.isSome_iff_exists.mp
            (List.getLast?_isSome.mpr (List.cons_ne_nil x xs))
          rw [List.getLast?_cons_cons, hy]
          rw [hy] at ih
          simpa using ih
      · have hp : (fun g => decide (extractWindow dtype g = some w)) f = false := by
          simp [hext]
          exact fun hh => hw hh.symm
        rw [if_neg hw] at ih
        rw [if_neg (by simp [hp] : ¬ _ = true)]
        exact ih

/-- A successful lookup certifies table membership. -/
theorem mem_of_lookupRow :
    ∀ (tbl : List (String × List ℚ)) (w : String) (row : List ℚ),
    lookupRow tbl w = some row → (w, row) ∈ tbl
  | [], w, row => by simp [lookupRow]
  | (k, v) :: t, w, row => by
    rw [lookupRow]
    split_ifs with hk
    · intro h
      injection h with h
      subst h
      subst hk
      exact List.mem_cons_self _ _
    · intro h
      exact List.mem_cons_of_mem _ (mem_of_lookupRow t w row h)

/-- C10: the written cross-window summary table has at most one row per
window-id label, and when several discovered files yield the same window id
the row carried by the final table is the one computed from the last such
file processed — earlier rows are overwritten by `out_stats.loc[wdw] = ...`. -/
theorem C10_last_file_wins (cfg : Config) (listing : List String)
    (oracle : String → List FoldRecord) (tbl : List (String × List ℚ))
    (h : runMain cfg listing oracle = Except.ok tbl) (w : String) (f : String)
    (hlast : ((filesOf cfg.indir cfg.dtype listing).filter
        (fun g => extractWindow cfg.dtype g = some w)).getLast? = some f) :
    (tbl.map Prod.fst).Nodup ∧ (w, summaryRow (oracle f)) ∈ tbl := by
  rw [runMain] at h
  cases hval : validateConfig cfg with
  | error e => rw [hval] at h; exact absurd h (by simp)
  | ok u =>
    rw [hval] at h
    cases hp : processFiles cfg.dtype oracle
        (filesOf cfg.indir cfg.dtype listing) [] with
    | error e => rw [hp] at h; exact absurd h (by simp [Except.map])
    | ok t0 =>
      rw [hp] at h
      have htbl : tbl = sortByKey t0 := by simpa [Except.map] using h.symm
      have hperm : (sortByKey t0).Perm t0 := List.perm_insertionSort _ t0
      have hnd : (t0.map Prod.fst).Nodup :=
        processFiles_nodup_keys cfg.dtype oracle _ [] t0 hp (by simp)
      have hlook := processFiles_lookup_last cfg.dtype oracle _ [] t0 hp w
      rw [hlast] at hlook
      simp only [Option.map_some', Option.or_some] at hlook
      have hmem : (w, summaryRow (oracle f)) ∈ t0 :=
        mem_of_lookupRow t0 w _ hlook
      subst htbl
      exact ⟨((hperm.map Prod.fst).nodup_iff).mpr hnd, hperm.mem_iff.mpr hmem⟩

/-- Witness for C10 on a run with two files sharing window id 7. -/
theorem C10_last_file_wins_witness :
    ([("7", summaryRow [])].map Prod.fst).Nodup ∧
    ("7", summaryRow []) ∈ [("7", summaryRow [])] :=
  C10_last_file_wins cfgACC ["ACC7_reduced.csv", "ACC7_reducedB.csv"]
    (fun _ => []) [("7", summaryRow [])] rfl "7" "in/ACC7_reducedB.csv" rfl

end Seabirds
